import Mathlib

/-!
Verification of the NYSC accounting registration app (`app.py`) against its
natural-language specification.  The single source file is a Flask app over a
one-table SQLite database; the embedding below models the `submissions` table,
the form-normalization, the duplicate check, the edit/delete routes, SQL `LIKE`
search, and the file-copy backup subsystem as pure Lean functions.
-/

namespace NYSC

/-- ASCII uppercasing of a string, character by character: model of Python's
`str.upper()` as used on the (ASCII) form fields throughout `app.py`. -/
def strUpper (s : String) : String := String.mk (s.data.map Char.toUpper)

/-- Model of `request.form.get(key, "")`: the first value bound to `key` in the
submitted form, or the empty string when the key is absent. -/
def formGet (form : List (String × String)) (key : String) : String :=
  match form.find? (fun kv => kv.fst == key) with
  | some kv => kv.snd
  | none => ""

/-- Python's `str.strip()` (leading/trailing whitespace removal).  The code never
calls it; it is needed to state what the spec demands of normalization. -/
def strTrim (s : String) : String :=
  String.mk (((s.data.dropWhile Char.isWhitespace).reverse.dropWhile Char.isWhitespace).reverse)

/-- The nine caller-supplied columns of the `submissions` table
(`CREATE TABLE` at lines 66-80 of `app.py`). -/
structure Payload where
  state_code : String
  corps_member_name : String
  sex : String
  bank_name : String
  account_number : String
  phone_number : String
  callup_number : String
  callup_letter_name : String
  account_name : String
deriving Repr, DecidableEq

/-- One row of the `submissions` table: the system-assigned `id`
(`INTEGER PRIMARY KEY AUTOINCREMENT`) and `submitted_at`
(`DATETIME DEFAULT CURRENT_TIMESTAMP`, modelled as a natural number)
around the nine caller-supplied columns. -/
structure Submission where
  id : Nat
  data : Payload
  submitted_at : Nat
deriving Repr, DecidableEq

/-- The live `submissions` table in row order, together with the AUTOINCREMENT
counter that assigns the next fresh id. -/
structure Store where
  rows : List Submission
  next_id : Nat
deriving Repr, DecidableEq

/-- Lines 146-157 (identically lines 123-134 in `preview`): build the payload
from the raw form, defaulting every missing field to `""` and uppercasing.
The code performs no whitespace stripping. -/
def normalize (form : List (String × String)) : Payload :=
  { state_code := strUpper (formGet form "state_code")
    corps_member_name := strUpper (formGet form "corps_member_name")
    sex := strUpper (formGet form "sex")
    bank_name := strUpper (formGet form "bank_name")
    account_number := strUpper (formGet form "account_number")
    phone_number := strUpper (formGet form "phone_number")
    callup_number := strUpper (formGet form "callup_number")
    callup_letter_name := strUpper (formGet form "callup_letter_name")
    account_name := strUpper (formGet form "account_name") }

/-- Stated from the spec's words for `normalize` ("every recognized field is
trimmed of leading/trailing whitespace and upper-cased"), to be compared with
the `normalize` translated from the code. -/
def normalizeSpec (form : List (String × String)) : Payload :=
  { state_code := strUpper (strTrim (formGet form "state_code"))
    corps_member_name := strUpper (strTrim (formGet form "corps_member_name"))
    sex := strUpper (strTrim (formGet form "sex"))
    bank_name := strUpper (strTrim (formGet form "bank_name"))
    account_number := strUpper (strTrim (formGet form "account_number"))
    phone_number := strUpper (strTrim (formGet form "phone_number"))
    callup_number := strUpper (strTrim (formGet form "callup_number"))
    callup_letter_name := strUpper (strTrim (formGet form "callup_letter_name"))
    account_name := strUpper (strTrim (formGet form "account_name")) }

/-- Result of a submission attempt.  The code flashes a duplicate error or a
success message; on success the inserted row is the created record. -/
inductive SubmitOutcome where
  | duplicateError
  | success (created : Submission)
deriving Repr, DecidableEq

/-- Store-level insert, lines 158-183 of `app.py`: `SELECT * FROM submissions
WHERE account_number=?` and reject as a duplicate when a row exists, else
`INSERT` a new row (fresh id, current timestamp).  The duplicate branch
performs no write: the store is returned unchanged. -/
def insert (st : Store) (data : Payload) (now : Nat) : SubmitOutcome × Store :=
  if st.rows.any (fun r => r.data.account_number == data.account_number) then
    (SubmitOutcome.duplicateError, st)
  else
    (SubmitOutcome.success { id := st.next_id, data := data, submitted_at := now },
      { rows := st.rows ++ [{ id := st.next_id, data := data, submitted_at := now }],
        next_id := st.next_id + 1 })

/-- The `/submit` route (lines 143-186): normalize the raw form to uppercase,
then run the duplicate check and insert of lines 158-183. -/
def submit (st : Store) (form : List (String × String)) (now : Nat) :
    SubmitOutcome × Store :=
  let data := normalize form
  if st.rows.any (fun r => r.data.account_number == data.account_number) then
    (SubmitOutcome.duplicateError, st)
  else
    (SubmitOutcome.success { id := st.next_id, data := data, submitted_at := now },
      { rows := st.rows ++ [{ id := st.next_id, data := data, submitted_at := now }],
        next_id := st.next_id + 1 })

/-- The nine `.upper()` calls of the edit route (lines 287-295). -/
def upperPayload (p : Payload) : Payload :=
  { state_code := strUpper p.state_code
    corps_member_name := strUpper p.corps_member_name
    sex := strUpper p.sex
    bank_name := strUpper p.bank_name
    account_number := strUpper p.account_number
    phone_number := strUpper p.phone_number
    callup_number := strUpper p.callup_number
    callup_letter_name := strUpper p.callup_letter_name
    account_name := strUpper p.account_name }

/-- The `/admin/edit/<id>` POST branch, lines 281-298: `UPDATE submissions SET
<the nine caller-supplied columns> WHERE id = ?`.  Neither `id` nor
`submitted_at` appears in the SET list, and no uniqueness re-check is made. -/
def edit (st : Store) (id : Nat) (p : Payload) : Store :=
  { st with rows := st.rows.map (fun r =>
      if r.id == id then { r with data := upperPayload p } else r) }

/-- Possible outcomes of the delete route.  `notFoundError` is the spec's
error-taxonomy value; the code never produces it. -/
inductive DeleteOutcome where
  | success
  | notFoundError
deriving Repr, DecidableEq

/-- The `/admin/delete/<id>` route, lines 260-273: `DELETE FROM submissions
WHERE id = ?` followed by an unconditional success flash — there is no
existence check before or after the delete. -/
def delete (st : Store) (id : Nat) : DeleteOutcome × Store :=
  (DeleteOutcome.success,
    { st with rows := st.rows.filter (fun r => !(r.id == id)) })

/-- `SELECT * FROM submissions WHERE id = ?` plus `fetchone` (lines 309, 411,
444 of `app.py`): the first row with that id, if any. -/
def get_record (st : Store) (id : Nat) : Option Submission :=
  st.rows.find? (fun r => r.id == id)

/-- `SELECT * FROM submissions ORDER BY submitted_at DESC` (line 236). -/
def list_all (st : Store) : List Submission :=
  List.insertionSort (fun a b => b.submitted_at ≤ a.submitted_at) st.rows

/-- No two live rows share an `account_number` (the store's advertised
uniqueness invariant). -/
def UniqAcct (st : Store) : Prop :=
  st.rows.Pairwise (fun a b => a.data.account_number ≠ b.data.account_number)

/-- Well-formed store: row ids are pairwise distinct and strictly below the
AUTOINCREMENT counter, as SQLite maintains for `INTEGER PRIMARY KEY
AUTOINCREMENT` tables. -/
def WFStore (st : Store) : Prop :=
  (st.rows.map Submission.id).Nodup ∧ ∀ r ∈ st.rows, r.id < st.next_id

/-- `s` occurs at the start of `t` (character lists compared with `==`). -/
def isPfx : List Char → List Char → Bool
  | [], _ => true
  | _ :: _, [] => false
  | a :: s, b :: t => a == b && isPfx s t

/-- `s` occurs somewhere in `t` as a contiguous run of characters. -/
def containsSub : List Char → List Char → Bool
  | s, [] => s.isEmpty
  | s, c :: t => isPfx s (c :: t) || containsSub s t

/-- `f` holds of some suffix of the list (the full list included). -/
def suffAny (f : List Char → Bool) : List Char → Bool
  | [] => f []
  | c :: t => f (c :: t) || suffAny f t

/-- SQLite `LIKE` pattern matching, as invoked by the search route (lines
247-252): `%` matches any run of characters — the remaining pattern must match
some suffix of the string — `_` matches exactly one character, and every other
pattern character matches itself up to ASCII case. -/
def likeMatch : List Char → List Char → Bool
  | [], s => s.isEmpty
  | p :: ps, s =>
    if p = '%' then suffAny (likeMatch ps) s
    else
      match s with
      | [] => false
      | c :: s' =>
        (if p = '_' then true else Char.toUpper p == Char.toUpper c) && likeMatch ps s'

/-- The `/admin/search` route, lines 243-258: wrap the raw query in `%…%` and
return the rows whose name, state code, or account number the pattern
LIKE-matches, in table order. -/
def search (st : Store) (q : String) : List Submission :=
  st.rows.filter (fun r =>
    likeMatch ('%' :: (q.data ++ ['%'])) r.data.corps_member_name.data ||
    likeMatch ('%' :: (q.data ++ ['%'])) r.data.state_code.data ||
    likeMatch ('%' :: (q.data ++ ['%'])) r.data.account_number.data)

/-- Stated from the claim's words: the rows in which `q` occurs
case-insensitively as a literal substring of name, state code, or account
number. -/
def searchSpec (st : Store) (q : String) : List Submission :=
  st.rows.filter (fun r =>
    containsSub (q.data.map Char.toUpper) (r.data.corps_member_name.data.map Char.toUpper) ||
    containsSub (q.data.map Char.toUpper) (r.data.state_code.data.map Char.toUpper) ||
    containsSub (q.data.map Char.toUpper) (r.data.account_number.data.map Char.toUpper))

/-- The query contains neither of the LIKE wildcards `%` and `_`. -/
def noWild (q : List Char) : Bool :=
  q.all (fun c => !(c == '%') && !(c == '_'))

/-- The persistent state seen by the backup subsystem: the live database file
plus the named backup files in `BACKUP_DIR`.  The two never alias: the live
database is `instance/nysc_accounts.db`, backups live in `instance/backups`. -/
structure FileSys where
  live : Store
  backups : List (String × Store)
deriving Repr, DecidableEq

/-- Whether the raw file copy inside `backup_db`'s `try` block succeeds or
raises an I/O error. -/
inductive IOOutcome where
  | ok
  | ioError
deriving Repr, DecidableEq

/-- An I/O failure, were `backup_db` to surface one. -/
inductive IOErr where
  | ioErr
deriving Repr, DecidableEq

/-- Write (or overwrite) the file `name` in the backup directory. -/
def writeBackup (bs : List (String × Store)) (name : String) (content : Store) :
    List (String × Store) :=
  if bs.any (fun p => p.fst == name) then
    bs.map (fun p => if p.fst == name then (name, content) else p)
  else bs ++ [(name, content)]

/-- A wall-clock timestamp as the six fields `datetime.now().strftime`
formats at lines 106-107. -/
structure TS where
  y : Nat
  mo : Nat
  d : Nat
  h : Nat
  mi : Nat
  s : Nat
deriving Repr, DecidableEq

/-- A two-digit zero-padded decimal field (`%m`, `%d`, `%H`, `%M`, `%S`). -/
def pad2 (n : Nat) : List Char :=
  [Nat.digitChar (n / 10), Nat.digitChar (n % 10)]

/-- A four-digit zero-padded decimal field (`%Y` for years 1000-9999). -/
def pad4 (n : Nat) : List Char :=
  [Nat.digitChar (n / 1000), Nat.digitChar (n / 100 % 10),
   Nat.digitChar (n / 10 % 10), Nat.digitChar (n % 10)]

/-- `f'nysc_backup_{timestamp}.db'` with
`timestamp = now.strftime('%Y-%m-%d_%H-%M-%S')` (lines 106-107): fixed prefix,
zero-padded timestamp fields with the literal separators, `.db` suffix. -/
def backupName (t : TS) : List Char :=
  "nysc_backup_".data ++
    (pad4 t.y ++ '-' :: (pad2 t.mo ++ '-' :: (pad2 t.d ++ '_' ::
      (pad2 t.h ++ '-' :: (pad2 t.mi ++ '-' :: (pad2 t.s ++ ".db".data))))))

/-- `backup_db` (lines 102-112): read the live database file and write its
bytes to a fresh timestamp-named file in `BACKUP_DIR`.  The whole body sits in
a `try`/`except` that logs any exception and falls through, so the function
returns normally in both branches; on an I/O error nothing has been written
(failure modelled at the earliest point, before any byte of the copy), and the
live file is only ever opened for reading. -/
def backup_db (fs : FileSys) (t : TS) (io : IOOutcome) : FileSys × Except IOErr Unit :=
  match io with
  | IOOutcome.ok =>
      ({ fs with backups := writeBackup fs.backups (String.mk (backupName t)) fs.live },
        Except.ok ())
  | IOOutcome.ioError => (fs, Except.ok ())

/-- A mutation of the live record store: a form submission, an edit, or a
delete. -/
inductive Mutation where
  | ins (form : List (String × String)) (now : Nat)
  | ed (id : Nat) (p : Payload)
  | del (id : Nat)

/-- Run one mutating route against the live database file.  None of the three
routes touches `BACKUP_DIR`. -/
def applyMut (fs : FileSys) : Mutation → FileSys
  | Mutation.ins form now => { fs with live := (submit fs.live form now).snd }
  | Mutation.ed id p => { fs with live := edit fs.live id p }
  | Mutation.del id => { fs with live := (delete fs.live id).snd }

/-- Run a sequence of mutating routes in order. -/
def applyMuts (fs : FileSys) : List Mutation → FileSys
  | [] => fs
  | m :: ms => applyMuts (applyMut fs m) ms

/-- The backup file with the given name, if present. -/
def lookupBackup (fs : FileSys) (name : String) : Option Store :=
  (fs.backups.find? (fun p => p.fst == name)).map Prod.snd

/-- `/admin/backup/<name>` (lines 360-370): open the named snapshot and list
its rows ordered by `submitted_at` descending; `none` when the file is
missing. -/
def view_backup (fs : FileSys) (name : String) : Option (List Submission) :=
  (lookupBackup fs name).map list_all

/-- Strict lexicographic code-point order on character lists: Python's `<` on
strings, which `sorted` uses. -/
def lexLt : List Char → List Char → Bool
  | _, [] => false
  | [], _ :: _ => true
  | a :: s, b :: t => decide (a.toNat < b.toNat) || (a == b && lexLt s t)

/-- `a` is not lexicographically below `b`: the descending-sort relation of
`sorted(..., reverse=True)`. -/
def nameGe (a b : List Char) : Prop := lexLt a b = false

instance decNameGe : DecidableRel nameGe :=
  fun a b => inferInstanceAs (Decidable (lexLt a b = false))

/-- `s` is a suffix of `t` (model of `str.endswith`). -/
def isSfx (s t : List Char) : Bool := isPfx s.reverse t.reverse

/-- `/admin/backups` (lines 337-348): the `.db` files of the backup directory,
`sorted(..., reverse=True)` — descending code-point order on the names. -/
def list_backups (files : List (List Char)) : List (List Char) :=
  List.insertionSort nameGe (files.filter (fun f => isSfx ".db".data f))

/-- Lexicographic (calendar) order on timestamps. -/
def tsLt (a b : TS) : Prop :=
  a.y < b.y ∨ (a.y = b.y ∧ (a.mo < b.mo ∨ (a.mo = b.mo ∧ (a.d < b.d ∨ (a.d = b.d ∧
    (a.h < b.h ∨ (a.h = b.h ∧ (a.mi < b.mi ∨ (a.mi = b.mi ∧ a.s < b.s)))))))))

/-- The field ranges under which `strftime` produces the zero-padded digits the
format promises (calendar values are well inside these bounds). -/
def validTS (t : TS) : Prop :=
  1000 ≤ t.y ∧ t.y < 10000 ∧ t.mo < 100 ∧ t.d < 100 ∧ t.h < 100 ∧ t.mi < 100 ∧ t.s < 100

/-- Split a character list at `/`, accumulating the current component. -/
def splitPathAux (acc : List Char) : List Char → List String
  | [] => [String.mk acc.reverse]
  | c :: rest =>
    if c = '/' then String.mk acc.reverse :: splitPathAux [] rest
    else splitPathAux (c :: acc) rest

/-- Path components of a POSIX path string (empty components dropped). -/
def splitPath (p : String) : List String :=
  (splitPathAux [] p.data).filter (fun s => !(s == ""))

/-- The string denotes an absolute path. -/
def isAbsPath (p : String) : Bool :=
  match p.data with
  | '/' :: _ => true
  | _ => false

/-- `os.path.join(base, name)` for one joined argument: an absolute `name`
discards `base`, otherwise the two are joined with a separator. -/
def pathJoin (base name : String) : String :=
  if isAbsPath name then name else base ++ "/" ++ name

/-- The component list the kernel actually opens: `.` is dropped and `..` pops
the previous component, as resolution does when the file is opened. -/
def resolvePath (p : String) : List String :=
  (splitPath p).foldl
    (fun acc c => if c == "." then acc else if c == ".." then acc.dropLast else acc ++ [c]) []

/-- `app.instance_path` (an absolute path; its exact value is irrelevant to the
claims, only that the live database `nysc_accounts.db` sits directly in it). -/
def instancePath : String := "/srv/nysc/instance"

/-- `BACKUP_DIR = os.path.join(app.instance_path, 'backups')` (line 39). -/
def BACKUP_DIR : String := instancePath ++ "/backups"

/-- The component list `base` is an initial run of the component list `p`. -/
def startsWithComponents : List String → List String → Bool
  | [], _ => true
  | _ :: _, [] => false
  | a :: s, b :: t => a == b && startsWithComponents s t

/-- The path resolves to the backup directory or below it. -/
def insideBackupDir (p : String) : Bool :=
  startsWithComponents (resolvePath BACKUP_DIR) (resolvePath p)

/-- Failure of the backup lookup (the code raises a bare `Exception("Backup
file does not exist.")`; the spec calls it `NotFoundError`). -/
inductive BackupLookupError where
  | notFoundError
deriving Repr, DecidableEq

/-- `get_backup_db` (lines 351-358): join the supplied filename onto
`BACKUP_DIR` with no validation of any kind, fail when the joined path does
not exist, and otherwise open that path with `sqlite3.connect`.  The returned
string is the path handed to `connect`; `ex` is the file-existence oracle
(`os.path.exists`). -/
def get_backup_db (ex : String → Bool) (backup_filename : String) :
    Except BackupLookupError String :=
  if ex (pathJoin BACKUP_DIR backup_filename) then
    Except.ok (pathJoin BACKUP_DIR backup_filename)
  else
    Except.error BackupLookupError.notFoundError

/-! Concrete example values used to instantiate theorems with hypotheses and to
exhibit counterexamples. -/

/-- A sample registration payload. -/
def exPayloadA : Payload :=
  ⟨"KD", "ADA OBI", "F", "GTB", "0123456789", "080", "", "", ""⟩

/-- A second payload with a different account number. -/
def exPayloadB : Payload :=
  ⟨"KD", "BEN EZE", "M", "UBA", "9876543210", "081", "", "", ""⟩

/-- A two-row store holding both sample payloads. -/
def exStore : Store := ⟨[⟨1, exPayloadA, 10⟩, ⟨2, exPayloadB, 20⟩], 3⟩

/-- An edit form that re-uses `exPayloadA`'s account number. -/
def exEditPayload : Payload :=
  ⟨"KD", "BEN EZE", "M", "UBA", "0123456789", "081", "", "", ""⟩

/-- A one-row store whose only populated search field is the name `AB`. -/
def exSearchStore : Store :=
  ⟨[⟨1, ⟨"", "AB", "", "", "", "", "", "", ""⟩, 0⟩], 2⟩

/-- A filesystem with the two-row live store and no backups yet. -/
def exFS : FileSys := ⟨exStore, []⟩

/-- A sample backup timestamp. -/
def exTS : TS := ⟨2024, 3, 7, 9, 5, 30⟩

/-- A later backup timestamp. -/
def exTS2 : TS := ⟨2025, 1, 2, 3, 4, 5⟩

/-! General helper lemmas about the embedding. -/

theorem charToNat_inj {a b : Char} (h : a.toNat = b.toNat) : a = b :=
  Char.eq_of_val_eq (UInt32.toNat.inj h)

theorem mem_list_all {st : Store} {r : Submission} : r ∈ list_all st ↔ r ∈ st.rows :=
  (List.perm_insertionSort _ _).mem_iff

theorem applyMuts_backups (ms : List Mutation) :
    ∀ fs : FileSys, (applyMuts fs ms).backups = fs.backups := by
  induction ms with
  | nil => intro fs; rfl
  | cons m ms ih =>
    intro fs
    have h : (applyMut fs m).backups = fs.backups := by cases m <;> rfl
    simpa [applyMuts, h] using ih (applyMut fs m)

theorem find?_map_overwrite (name : String) (c : Store) :
    ∀ bs : List (String × Store),
      bs.any (fun p => p.fst == name) = true →
      (bs.map (fun p => if p.fst == name then (name, c) else p)).find?
          (fun p => p.fst == name) = some (name, c) := by
  intro bs
  induction bs with
  | nil => intro h; simp at h
  | cons q bs ih =>
    intro h
    by_cases hq : (q.fst == name) = true
    · rw [List.map_cons, if_pos hq]
      exact List.find?_cons_of_pos _ (by simp)
    · have h' : bs.any (fun p => p.fst == name) = true := by
        rcases List.any_eq_true.mp h with ⟨x, hx, hpx⟩
        rcases List.mem_cons.mp hx with rfl | hx'
        · exact absurd hpx hq
        · exact List.any_eq_true.mpr ⟨x, hx', hpx⟩
      have hq' : (q.fst == name) = false := by simpa using hq
      rw [List.map_cons, if_neg hq]
      simp only [List.find?_cons, hq']
      exact ih h'

theorem find?_append_fresh (name : String) (c : Store) :
    ∀ bs : List (String × Store),
      bs.any (fun p => p.fst == name) = false →
      ((bs ++ [(name, c)]).find? (fun p => p.fst == name)) = some (name, c) := by
  intro bs
  induction bs with
  | nil => intro h; simp
  | cons q bs ih =>
    intro h
    simp only [List.any_cons, Bool.or_eq_false_iff] at h
    simp [h.1, ih h.2]

theorem find?_writeBackup (fs : FileSys) (name : String) (c : Store) :
    (writeBackup fs.backups name c).find? (fun p => p.fst == name) = some (name, c) := by
  unfold writeBackup
  by_cases h : (fs.backups.any fun p => p.fst == name) = true
  · rw [if_pos h]
    exact find?_map_overwrite name c fs.backups h
  · have h' : (fs.backups.any fun p => p.fst == name) = false := Bool.eq_false_iff.mpr h
    rw [if_neg h]
    exact find?_append_fresh name c fs.backups h'

theorem lookupBackup_write (fs : FileSys) (name : String) (c : Store) :
    lookupBackup { fs with backups := writeBackup fs.backups name c } name = some c := by
  show ((writeBackup fs.backups name c).find? (fun p => p.fst == name)).map Prod.snd = some c
  rw [find?_writeBackup fs name c]
  rfl

theorem uniq_edit_aux (id : Nat) (p : Payload) :
    ∀ rows : List Submission,
      rows.Pairwise (fun a b => a.data.account_number ≠ b.data.account_number) →
      (rows.map Submission.id).Nodup →
      (∀ r ∈ rows, ¬ r.id = id →
        ¬ r.data.account_number = (upperPayload p).account_number) →
      (rows.map (fun r =>
          if r.id == id then { r with data := upperPayload p } else r)).Pairwise
        (fun a b => a.data.account_number ≠ b.data.account_number) := by
  intro rows
  induction rows with
  | nil => intro _ _ _; simp
  | cons a rs ih =>
    intro hp hn hother
    obtain ⟨ha, hp'⟩ := List.pairwise_cons.mp hp
    rw [List.map_cons] at hn
    obtain ⟨hn1, hn2⟩ := List.nodup_cons.mp hn
    rw [List.map_cons, List.pairwise_cons]
    refine ⟨?_, ih hp' hn2 (fun r hr h' => hother r (List.mem_cons_of_mem a hr) h')⟩
    intro b' hb'
    obtain ⟨b, hb, rfl⟩ := List.mem_map.mp hb'
    by_cases hA : a.id = id
    · have hbne : ¬ b.id = id := by
        intro hbid
        exact hn1 (List.mem_map.mpr ⟨b, hb, hbid.trans hA.symm⟩)
      rw [if_pos (by simpa using hA), if_neg (by simpa using hbne)]
      intro heq
      exact hother b (List.mem_cons_of_mem a hb) hbne heq.symm
    · rw [if_neg (by simpa using hA)]
      by_cases hB : b.id = id
      · rw [if_pos (by simpa using hB)]
        exact hother a (List.mem_cons_self a rs) hA
      · rw [if_neg (by simpa using hB)]
        exact ha b hb

/-- C1 counterexample: the sample store satisfies the uniqueness invariant,
yet editing row 2 to re-use row 1's account number succeeds and leaves two
live records with the same account number — the edit route never re-checks
uniqueness. -/
theorem c1_edit_breaks_uniqueness :
    UniqAcct exStore ∧ ¬ UniqAcct (edit exStore 2 exEditPayload) := by
  constructor
  · unfold UniqAcct
    decide
  · unfold UniqAcct
    decide

/-- C1 (amended): insert and delete preserve account-number uniqueness across
the live records, but edit preserves it only under the extra hypothesis that
the submitted account number does not collide with any other live row — the
edit route performs no uniqueness re-check, so a colliding edit violates the
invariant (see the counterexample). -/
theorem c1_uniqueness_preservation :
    (∀ st p now, UniqAcct st → UniqAcct (insert st p now).snd)
  ∧ (∀ st id, UniqAcct st → UniqAcct (delete st id).snd)
  ∧ (∀ st id p, UniqAcct st → (st.rows.map Submission.id).Nodup →
      (∀ r ∈ st.rows, ¬ r.id = id →
        ¬ r.data.account_number = (upperPayload p).account_number) →
      UniqAcct (edit st id p)) := by
  refine ⟨?_, ?_, ?_⟩
  · intro st p now hu
    unfold insert
    by_cases h : (st.rows.any fun r => r.data.account_number == p.account_number) = true
    · rw [if_pos h]
      exact hu
    · rw [if_neg h]
      show (st.rows ++ [(⟨st.next_id, p, now⟩ : Submission)]).Pairwise _
      apply List.pairwise_append.mpr
      refine ⟨hu, List.pairwise_singleton _ _, ?_⟩
      intro x hx b hb
      have hb' : b = ⟨st.next_id, p, now⟩ := by simpa using hb
      subst hb'
      intro heq
      have hall := List.any_eq_false.mp (Bool.eq_false_iff.mpr h)
      exact hall x hx (by simp [heq])
  · intro st id hu
    show (st.rows.filter _).Pairwise _
    exact List.Pairwise.sublist (List.filter_sublist _) hu
  · intro st id p hu hn hother
    show (st.rows.map _).Pairwise _
    exact uniq_edit_aux id p st.rows hu hn hother

/-- Witness for the amended C1 theorem: inserting a fresh account number into
the sample store keeps the invariant. -/
theorem c1_witness : UniqAcct (insert exStore ⟨"KD", "C", "M", "GTB", "5550001111", "080", "", "", ""⟩ 30).snd :=
  c1_uniqueness_preservation.1 exStore ⟨"KD", "C", "M", "GTB", "5550001111", "080", "", "", ""⟩ 30
    (by unfold UniqAcct; decide)

/-- C2: if a live record already carries the payload's account number, insert
reports `duplicateError` and the store is exactly unchanged; otherwise it
appends exactly one new row carrying the payload, the fresh autoincrement id
(distinct from every live id), and the current timestamp, and returns that
created record. -/
theorem c2_insert_semantics (st : Store) (p : Payload) (now : Nat)
    (hwf : ∀ r ∈ st.rows, r.id < st.next_id) :
    ((∃ r ∈ st.rows, r.data.account_number = p.account_number) →
      insert st p now = (SubmitOutcome.duplicateError, st))
  ∧ ((∀ r ∈ st.rows, ¬ r.data.account_number = p.account_number) →
      insert st p now =
        (SubmitOutcome.success ⟨st.next_id, p, now⟩,
          ⟨st.rows ++ [⟨st.next_id, p, now⟩], st.next_id + 1⟩)
      ∧ ∀ r ∈ st.rows, ¬ r.id = st.next_id) := by
  constructor
  · intro hex
    obtain ⟨r, hr, hacct⟩ := hex
    unfold insert
    rw [if_pos (List.any_eq_true.mpr ⟨r, hr, by simp [hacct]⟩)]
  · intro h
    have hfalse : ¬ (st.rows.any fun r => r.data.account_number == p.account_number) = true := by
      intro hany
      obtain ⟨r, hr, hacct⟩ := List.any_eq_true.mp hany
      exact h r hr (by simpa using hacct)
    constructor
    · unfold insert
      rw [if_neg hfalse]
    · intro r hr hid
      have := hwf r hr
      omega

/-- Witness for the C2 theorem: re-submitting `exPayloadA`'s account number
against the sample store is rejected with the store unchanged. -/
theorem c2_witness : insert exStore exPayloadA 30 = (SubmitOutcome.duplicateError, exStore) := by
  have hw : ∀ r ∈ exStore.rows, r.id < exStore.next_id := by decide
  have hex : ∃ r ∈ exStore.rows, r.data.account_number = exPayloadA.account_number :=
    ⟨⟨1, exPayloadA, 10⟩, by decide, rfl⟩
  exact (c2_insert_semantics exStore exPayloadA 30 hw).1 hex

/-- C3 counterexample: the submitted value `" a"` keeps its leading blank — the
code uppercases the raw field but never strips it, so the stored
`normalize` output is not trimmed as the claim demands. -/
theorem c3_normalize_not_trimmed :
    (normalize [("state_code", " a")]).state_code = " A"
  ∧ (normalizeSpec [("state_code", " a")]).state_code = "A"
  ∧ ¬ strTrim ((normalize [("state_code", " a")]).state_code)
      = (normalize [("state_code", " a")]).state_code :=
  ⟨rfl, by decide, by decide⟩

/-- C3 (amended): `normalize` upper-cases every recognized field of the raw
form without any trimming, reads every missing field as the empty string, and
is applied before the uniqueness check and insert of the submit route. -/
theorem c3_normalize_uppercases_no_trim :
    (∀ form,
      normalize form =
        { state_code := strUpper (formGet form "state_code")
          corps_member_name := strUpper (formGet form "corps_member_name")
          sex := strUpper (formGet form "sex")
          bank_name := strUpper (formGet form "bank_name")
          account_number := strUpper (formGet form "account_number")
          phone_number := strUpper (formGet form "phone_number")
          callup_number := strUpper (formGet form "callup_number")
          callup_letter_name := strUpper (formGet form "callup_letter_name")
          account_name := strUpper (formGet form "account_name") })
  ∧ (∀ form key, (∀ kv ∈ form, ¬ kv.fst = key) → formGet form key = "")
  ∧ (∀ st form now, submit st form now = insert st (normalize form) now) := by
  refine ⟨fun form => rfl, ?_, fun st form now => rfl⟩
  intro form key h
  unfold formGet
  have hnone : form.find? (fun kv => kv.fst == key) = none :=
    List.find?_eq_none.mpr (fun x hx => by simpa using h x hx)
  rw [hnone]

/-- Witness for the amended C3 theorem at a concrete form: a form without a
`state_code` key normalizes that field to the empty string. -/
theorem c3_witness : formGet [("x", "1")] "state_code" = "" :=
  c3_normalize_uppercases_no_trim.2.1 [("x", "1")] "state_code" (by decide)

/-- C4: the edit route's UPDATE statement sets only the nine caller-supplied
columns, so every row keeps its `id` and `submitted_at` (and the autoincrement
counter is untouched); rows whose id differs from the edited one are
unchanged. -/
theorem c4_edit_preserves_id_and_submitted_at (st : Store) (id : Nat) (p : Payload) :
    (edit st id p).rows.map (fun r => (r.id, r.submitted_at))
        = st.rows.map (fun r => (r.id, r.submitted_at))
  ∧ (edit st id p).next_id = st.next_id
  ∧ ∀ r ∈ st.rows, ¬ r.id = id → r ∈ (edit st id p).rows := by
  refine ⟨?_, rfl, ?_⟩
  · simp only [edit]
    rw [List.map_map]
    apply List.map_congr_left
    intro a _
    by_cases h : a.id = id <;> simp [h]
  · intro r hr hne
    simp only [edit]
    apply List.mem_map.mpr
    exact ⟨r, hr, by simp [hne]⟩

/-- Witness for the C4 theorem: editing row 2 of the sample store leaves
row 1 in place. -/
theorem c4_witness : (⟨1, exPayloadA, 10⟩ : Submission) ∈ (edit exStore 2 exEditPayload).rows :=
  (c4_edit_preserves_id_and_submitted_at exStore 2 exEditPayload).2.2
    ⟨1, exPayloadA, 10⟩ (by decide) (by decide)

/-- C5 counterexample: deleting an id that no record has (id 5 in an empty
store) still reports success; it does not fail with `notFoundError` as the
claim requires. -/
theorem c5_delete_missing_id_reports_success :
    (delete ⟨[], 1⟩ 5).fst = DeleteOutcome.success
  ∧ ¬ (delete ⟨[], 1⟩ 5).fst = DeleteOutcome.notFoundError :=
  ⟨rfl, by decide⟩

/-- C5 (amended): `delete` always reports success — even when no row has the
given id, in which case it is a no-op.  When rows with the id exist they are
removed: a subsequent `get_record` finds nothing, the surviving rows are
exactly the previous rows with a different id, and no row with the deleted id
appears in the dashboard listing. -/
theorem c5_delete_removes (st : Store) (id : Nat) :
    (delete st id).fst = DeleteOutcome.success
  ∧ get_record (delete st id).snd id = none
  ∧ (∀ r ∈ (delete st id).snd.rows, r ∈ st.rows ∧ ¬ r.id = id)
  ∧ (∀ r ∈ st.rows, ¬ r.id = id → r ∈ (delete st id).snd.rows)
  ∧ (∀ r ∈ list_all (delete st id).snd, ¬ r.id = id) := by
  have hfilter : ∀ x ∈ (delete st id).snd.rows, x ∈ st.rows ∧ ¬ x.id = id := by
    intro x hx
    simp only [delete] at hx
    have hx' := List.mem_filter.mp hx
    refine ⟨hx'.1, ?_⟩
    have h2 := hx'.2
    simpa using h2
  refine ⟨rfl, ?_, hfilter, ?_, ?_⟩
  · apply List.find?_eq_none.mpr
    intro x hx
    simpa using (hfilter x hx).2
  · intro r hr hne
    simp only [delete]
    exact List.mem_filter.mpr ⟨hr, by simpa using hne⟩
  · intro r hr
    exact (hfilter r (mem_list_all.mp hr)).2

/-- Witness for the amended C5 theorem: deleting row 1 of the sample store
leaves row 2 present. -/
theorem c5_witness : (⟨2, exPayloadB, 20⟩ : Submission) ∈ (delete exStore 1).snd.rows :=
  (c5_delete_removes exStore 1).2.2.2.1 ⟨2, exPayloadB, 20⟩ (by decide) (by decide)

theorem isPfx_nil (s : List Char) : isPfx s [] = s.isEmpty := by
  cases s <;> rfl

theorem containsSub_nil_left (t : List Char) : containsSub [] t = true := by
  cases t <;> rfl

theorem suffAny_empty_pat : ∀ t, suffAny (likeMatch []) t = true := by
  intro t
  induction t with
  | nil => rfl
  | cons c t ih =>
    show (likeMatch [] (c :: t) || suffAny (likeMatch []) t) = true
    rw [ih, Bool.or_true]

theorem likeMatch_cons_eq (p : Char) (ps s : List Char) :
    likeMatch (p :: ps) s =
      if p = '%' then suffAny (likeMatch ps) s
      else
        match s with
        | [] => false
        | c :: s' =>
          (if p = '_' then true else Char.toUpper p == Char.toUpper c) && likeMatch ps s' := by
  rw [likeMatch.eq_def]

theorem likeMatch_percent_nil (t : List Char) : likeMatch ['%'] t = true := by
  rw [likeMatch_cons_eq, if_pos rfl]
  exact suffAny_empty_pat t

theorem noWild_cons {a : Char} {q : List Char} (h : noWild (a :: q) = true) :
    ¬ a = '%' ∧ ¬ a = '_' ∧ noWild q = true := by
  simp only [noWild, List.all_cons, Bool.and_eq_true, Bool.not_eq_true',
    beq_eq_false_iff_ne, ne_eq] at h
  exact ⟨h.1.1, h.1.2, by simpa [noWild] using h.2⟩

theorem likeMatch_literal (q : List Char) :
    noWild q = true →
    ∀ t, likeMatch (q ++ ['%']) t = isPfx (q.map Char.toUpper) (t.map Char.toUpper) := by
  induction q with
  | nil =>
    intro _ t
    simp only [List.nil_append, List.map_nil]
    rw [likeMatch_percent_nil t]
    rfl
  | cons a q ih =>
    intro hw t
    obtain ⟨ha1, ha2, hq⟩ := noWild_cons hw
    cases t with
    | nil =>
      rw [List.cons_append]
      simp only [List.map_nil, List.map_cons]
      rw [isPfx_nil]
      simp [likeMatch, ha1]
    | cons c t =>
      rw [List.cons_append]
      have lhs : likeMatch (a :: (q ++ ['%'])) (c :: t)
          = ((Char.toUpper a == Char.toUpper c) && likeMatch (q ++ ['%']) t) := by
        simp [likeMatch, ha1, ha2]
      rw [lhs, ih hq t]
      rfl

theorem suffAny_literal (q : List Char) (hq : noWild q = true) :
    ∀ t, suffAny (likeMatch (q ++ ['%'])) t
      = containsSub (q.map Char.toUpper) (t.map Char.toUpper) := by
  intro t
  induction t with
  | nil =>
    show likeMatch (q ++ ['%']) [] = _
    rw [likeMatch_literal q hq []]
    simp only [List.map_nil]
    rw [isPfx_nil]
    rfl
  | cons c t ih =>
    show (likeMatch (q ++ ['%']) (c :: t) || suffAny (likeMatch (q ++ ['%'])) t) = _
    rw [likeMatch_literal q hq (c :: t), ih]
    simp only [List.map_cons]
    rfl

theorem likeMatch_contains (q : List Char) (hq : noWild q = true) :
    ∀ t, likeMatch ('%' :: (q ++ ['%'])) t
      = containsSub (q.map Char.toUpper) (t.map Char.toUpper) := by
  intro t
  rw [likeMatch_cons_eq, if_pos rfl]
  exact suffAny_literal q hq t

/-- C6 counterexample: on a store whose only row has name `AB`, the query `_`
(a LIKE single-character wildcard) returns the row although `_` is not a
literal substring of any of its three searched fields — SQL LIKE wildcards are
not escaped, so search is not literal-substring search. -/
theorem c6_wildcard_not_literal :
    search exSearchStore "_" = exSearchStore.rows
  ∧ searchSpec exSearchStore "_" = [] := by
  constructor
  · decide
  · decide

/-- C6 (amended): search implements SQL LIKE matching of `%query%`, so for
query strings containing no LIKE wildcard (`%` or `_`) it returns exactly the
rows where the query occurs case-insensitively as a literal substring of the
name, state code, or account number (OR semantics), and the empty query
returns all rows.  Queries containing wildcards are interpreted as patterns
instead (see the counterexample). -/
theorem c6_search_like_semantics :
    (∀ st q, noWild q.data = true → search st q = searchSpec st q)
  ∧ (∀ st, search st "" = st.rows) := by
  have main : ∀ st q, noWild q.data = true → search st q = searchSpec st q := by
    intro st q hq
    unfold search searchSpec
    apply List.filter_congr
    intro r _
    rw [likeMatch_contains q.data hq r.data.corps_member_name.data,
        likeMatch_contains q.data hq r.data.state_code.data,
        likeMatch_contains q.data hq r.data.account_number.data]
  refine ⟨main, ?_⟩
  intro st
  unfold search
  apply List.filter_eq_self.mpr
  intro r _
  rw [show "".data = ([] : List Char) from rfl]
  rw [likeMatch_contains [] rfl r.data.corps_member_name.data]
  simp [containsSub_nil_left]

/-- Witness for the amended C6 theorem: the wildcard-free query `ab` finds the
row named `AB` case-insensitively. -/
theorem c6_witness : search exSearchStore "ab" = searchSpec exSearchStore "ab" :=
  c6_search_like_semantics.1 exSearchStore "ab" (by decide)

/-- C7: after a backup is taken, any sequence of insert/edit/delete mutations
of the live store leaves every snapshot's query results unchanged, and the
fresh snapshot still returns exactly the rows the live store had at backup
time. -/
theorem c7_snapshot_immutable (fs : FileSys) (t : TS) (ms : List Mutation) (name : String) :
    view_backup (applyMuts (backup_db fs t IOOutcome.ok).fst ms) name
      = view_backup (backup_db fs t IOOutcome.ok).fst name
  ∧ view_backup (applyMuts (backup_db fs t IOOutcome.ok).fst ms) (String.mk (backupName t))
      = some (list_all fs.live) := by
  have hb : ∀ (g : FileSys) (nm : String), view_backup (applyMuts g ms) nm = view_backup g nm := by
    intro g nm
    unfold view_backup lookupBackup
    rw [applyMuts_backups ms g]
  refine ⟨hb _ _, ?_⟩
  rw [hb]
  have hfst : (backup_db fs t IOOutcome.ok).fst
      = { fs with backups := writeBackup fs.backups (String.mk (backupName t)) fs.live } := rfl
  rw [hfst]
  unfold view_backup
  rw [lookupBackup_write fs (String.mk (backupName t)) fs.live]
  rfl

/-- C8 counterexample: when the file copy raises an I/O error, `backup_db`
catches it, logs, and returns normally — the caller sees a normal return, not
a surfaced error. -/
theorem c8_backup_swallows_io_error :
    (backup_db exFS exTS IOOutcome.ioError).snd = Except.ok ()
  ∧ ¬ (backup_db exFS exTS IOOutcome.ioError).snd = Except.error IOErr.ioErr :=
  ⟨rfl, by simp [backup_db]⟩

/-- C8 (amended): `backup_db` never writes to the live store (its `live`
component is preserved in every branch), and on an I/O error it swallows the
exception — the whole filesystem is left unchanged and the function returns
normally instead of surfacing the error. -/
theorem c8_backup_reads_only_and_returns (fs : FileSys) (t : TS) (io : IOOutcome) :
    (backup_db fs t io).fst.live = fs.live
  ∧ (backup_db fs t io).snd = Except.ok ()
  ∧ (io = IOOutcome.ioError → (backup_db fs t io).fst = fs) := by
  cases io <;> simp [backup_db]

/-- Witness for the amended C8 theorem: on an I/O error the sample filesystem
is returned unchanged. -/
theorem c8_witness : (backup_db exFS exTS IOOutcome.ioError).fst = exFS :=
  (c8_backup_reads_only_and_returns exFS exTS IOOutcome.ioError).2.2 rfl

theorem lexLt_cons (a b : Char) (s t : List Char) :
    lexLt (a :: s) (b :: t) = (decide (a.toNat < b.toNat) || (a == b && lexLt s t)) := rfl

theorem lexLt_cons_iff (a b : Char) (s t : List Char) :
    lexLt (a :: s) (b :: t) = true ↔ (a.toNat < b.toNat ∨ (a = b ∧ lexLt s t = true)) := by
  rw [lexLt_cons]
  simp [Bool.or_eq_true, Bool.and_eq_true, decide_eq_true_eq, beq_iff_eq]

theorem lexLt_cons_same (c : Char) (s t : List Char) :
    lexLt (c :: s) (c :: t) = lexLt s t := by
  rw [lexLt_cons]
  simp [Nat.lt_irrefl]

theorem lexLt_append_same : ∀ (p s t : List Char), lexLt (p ++ s) (p ++ t) = lexLt s t := by
  intro p s t
  induction p with
  | nil => rfl
  | cons c p ih => rw [List.cons_append, List.cons_append, lexLt_cons_same, ih]

theorem lexLt_self : ∀ s : List Char, lexLt s s = false := by
  intro s
  induction s with
  | nil => rfl
  | cons c s ih => rw [lexLt_cons_same, ih]

theorem lexLt_asymm : ∀ {a b : List Char}, lexLt a b = true → lexLt b a = false := by
  intro a
  induction a with
  | nil =>
    intro b h
    cases b with
    | nil => exact absurd h (by simp [lexLt])
    | cons c t => rfl
  | cons x s ih =>
    intro b h
    cases b with
    | nil => rw [show lexLt (x :: s) [] = false from rfl] at h; exact absurd h (by simp)
    | cons y t =>
      rw [lexLt_cons_iff] at h
      apply Bool.eq_false_iff.mpr
      intro h2
      rw [lexLt_cons_iff] at h2
      rcases h with h | ⟨rfl, hst⟩
      · rcases h2 with h2 | ⟨rfl, _⟩
        · omega
        · omega
      · rcases h2 with h2 | ⟨_, hts⟩
        · omega
        · rw [ih hst] at hts
          exact absurd hts (by simp)

theorem lexLt_trans_or : ∀ {a c : List Char}, lexLt a c = true →
    ∀ b, lexLt a b = true ∨ lexLt b c = true := by
  intro a
  induction a with
  | nil =>
    intro c h b
    cases c with
    | nil => exact absurd h (by simp [lexLt])
    | cons z u =>
      cases b with
      | nil => exact Or.inr rfl
      | cons y t => exact Or.inl rfl
  | cons x s ih =>
    intro c h b
    cases c with
    | nil => rw [show lexLt (x :: s) [] = false from rfl] at h; exact absurd h (by simp)
    | cons z u =>
      rw [lexLt_cons_iff] at h
      cases b with
      | nil => exact Or.inr rfl
      | cons y t =>
        simp only [lexLt_cons_iff]
        rcases h with h | ⟨heq, hsu⟩
        · by_cases hxy : x.toNat < y.toNat
          · exact Or.inl (Or.inl hxy)
          · exact Or.inr (Or.inl (by omega))
        · by_cases hxy : x.toNat < y.toNat
          · exact Or.inl (Or.inl hxy)
          · by_cases hyx : y.toNat < x.toNat
            · refine Or.inr (Or.inl ?_)
              rw [← heq]
              omega
            · have hxyeq : x = y := charToNat_inj (by omega)
              subst hxyeq
              rcases ih hsu t with h1 | h1
              · exact Or.inl (Or.inr ⟨rfl, h1⟩)
              · exact Or.inr (Or.inr ⟨heq, h1⟩)

theorem nameGe_total : ∀ a b : List Char, nameGe a b ∨ nameGe b a := by
  intro a b
  cases h : lexLt a b
  · exact Or.inl h
  · exact Or.inr (lexLt_asymm h)

theorem nameGe_trans : ∀ a b c : List Char, nameGe a b → nameGe b c → nameGe a c := by
  intro a b c hab hbc
  cases h : lexLt a c
  · exact h
  · rcases lexLt_trans_or h b with h1 | h1
    · rw [hab] at h1
      exact absurd h1 (by simp)
    · rw [hbc] at h1
      exact absurd h1 (by simp)

theorem digitChar_cmp : ∀ a < 10, ∀ b < 10,
    (decide ((Nat.digitChar a).toNat < (Nat.digitChar b).toNat) = decide (a < b)
      ∧ ((Nat.digitChar a == Nat.digitChar b) = decide (a = b))) := by decide

theorem lexLt_digit_cons (a b : Nat) (ha : a < 10) (hb : b < 10) (s t : List Char) :
    lexLt (Nat.digitChar a :: s) (Nat.digitChar b :: t)
      = (decide (a < b) || (decide (a = b) && lexLt s t)) := by
  rw [lexLt_cons, (digitChar_cmp a ha b hb).1, (digitChar_cmp a ha b hb).2]

theorem lexLt_pad2 (a b : Nat) (ha : a < 100) (hb : b < 100) (s t : List Char) :
    lexLt (pad2 a ++ s) (pad2 b ++ t)
      = (decide (a < b) || (decide (a = b) && lexLt s t)) := by
  unfold pad2
  simp only [List.cons_append, List.nil_append]
  rw [lexLt_digit_cons (a / 10) (b / 10) (by omega) (by omega),
      lexLt_digit_cons (a % 10) (b % 10) (by omega) (by omega)]
  cases hst : lexLt s t <;>
    · rw [Bool.eq_iff_iff]
      simp only [Bool.or_eq_true, Bool.and_eq_true, decide_eq_true_eq, and_true, and_false,
        or_false, Bool.false_eq_true]
      omega

theorem lexLt_pad4 (a b : Nat) (ha : a < 10000) (hb : b < 10000) (s t : List Char) :
    lexLt (pad4 a ++ s) (pad4 b ++ t)
      = (decide (a < b) || (decide (a = b) && lexLt s t)) := by
  unfold pad4
  simp only [List.cons_append, List.nil_append]
  rw [lexLt_digit_cons (a / 1000) (b / 1000) (by omega) (by omega),
      lexLt_digit_cons (a / 100 % 10) (b / 100 % 10) (by omega) (by omega),
      lexLt_digit_cons (a / 10 % 10) (b / 10 % 10) (by omega) (by omega),
      lexLt_digit_cons (a % 10) (b % 10) (by omega) (by omega)]
  cases hst : lexLt s t <;>
    · rw [Bool.eq_iff_iff]
      simp only [Bool.or_eq_true, Bool.and_eq_true, decide_eq_true_eq, and_true, and_false,
        or_false, Bool.false_eq_true]
      omega

theorem backupName_lt_iff (t1 t2 : TS) (h1 : validTS t1) (h2 : validTS t2) :
    (lexLt (backupName t1) (backupName t2) = true ↔ tsLt t1 t2) := by
  obtain ⟨hy1a, hy1b, hmo1, hd1, hh1, hmi1, hs1⟩ := h1
  obtain ⟨hy2a, hy2b, hmo2, hd2, hh2, hmi2, hs2⟩ := h2
  unfold backupName
  rw [lexLt_append_same,
      lexLt_pad4 t1.y t2.y (by omega) (by omega),
      lexLt_cons_same,
      lexLt_pad2 t1.mo t2.mo hmo1 hmo2,
      lexLt_cons_same,
      lexLt_pad2 t1.d t2.d hd1 hd2,
      lexLt_cons_same,
      lexLt_pad2 t1.h t2.h hh1 hh2,
      lexLt_cons_same,
      lexLt_pad2 t1.mi t2.mi hmi1 hmi2,
      lexLt_cons_same,
      lexLt_pad2 t1.s t2.s hs1 hs2,
      lexLt_self]
  unfold tsLt
  simp only [Bool.or_eq_true, Bool.and_eq_true, decide_eq_true_eq, Bool.and_false,
    Bool.or_false, Bool.false_eq_true, and_false, or_false]

/-- C10: the backup listing returns the `.db` files of the backup directory
sorted descending (every earlier name is lexicographically at least every
later one, and the output is a permutation of the `.db` files); and because
backup names embed the zero-padded timestamp, lexicographic name order
coincides exactly with chronological creation order, so descending name order
is reverse-chronological. -/
theorem c10_list_backups_ordering :
    (∀ files : List (List Char),
      (list_backups files).Pairwise nameGe
      ∧ (list_backups files).Perm (files.filter (fun f => isSfx ".db".data f)))
  ∧ (∀ t1 t2, validTS t1 → validTS t2 →
      (lexLt (backupName t1) (backupName t2) = true ↔ tsLt t1 t2)) := by
  constructor
  · intro files
    haveI : IsTotal (List Char) nameGe := ⟨nameGe_total⟩
    haveI : IsTrans (List Char) nameGe := ⟨nameGe_trans⟩
    exact ⟨List.sorted_insertionSort nameGe _, List.perm_insertionSort nameGe _⟩
  · exact backupName_lt_iff

/-- Witness for the C10 theorem: the 2024 backup name sorts strictly below the
2025 backup name. -/
theorem c10_witness : lexLt (backupName exTS) (backupName exTS2) = true := by
  have h := c10_list_backups_ordering.2 exTS exTS2 (by unfold validTS; decide)
    (by unfold validTS; decide)
  exact h.mpr (Or.inl (by decide))

/-- C9 evaluated at the failing input `"../nysc_accounts.db"`: `get_backup_db`
joins the supplied name onto `BACKUP_DIR` without validation and opens a path
that resolves to the live database file, outside the backup directory — the
code's own comment claims to ensure containment but no check exists.  The
not-found half of the claim does hold: a name whose joined path does not exist
is rejected. -/
theorem c9_path_traversal_escapes :
    get_backup_db (fun _ => true) "../nysc_accounts.db"
      = Except.ok (pathJoin BACKUP_DIR "../nysc_accounts.db")
  ∧ resolvePath (pathJoin BACKUP_DIR "../nysc_accounts.db")
      = resolvePath (instancePath ++ "/nysc_accounts.db")
  ∧ insideBackupDir (pathJoin BACKUP_DIR "../nysc_accounts.db") = false
  ∧ get_backup_db (fun _ => false) "../nysc_accounts.db"
      = Except.error BackupLookupError.notFoundError :=
  ⟨rfl, by decide, by decide, rfl⟩

end NYSC
